import Mathlib

/-!
Shallow embedding of lib/Target/RISCV/RISCVInstrInfo.cpp: branch analysis and
insertion, branch-condition inversion, frame-slot move classification, and
integer-constant materialization, together with theorems checking the
specification of this component against the embedded code.
-/

namespace RISCV

/-- Condition-code masks (the RISCVII CCMASK values).  The numeric mask
constants are declared in a header outside this translation unit; the switch
statements of the source only require the ten comparison codes and the ANY
pseudo-code to be pairwise distinct (a C++ switch demands distinct case
labels), so they are embedded as a closed inductive type.  LTU abbreviates
CCMASK_CMP_LT | CCMASK_CMP_UO, and similarly for GEU, GTU, LEU. -/
inductive CC
  | EQ | NE | LT | LTU | GE | GEU | GT | GTU | LE | LEU | ANY
  deriving DecidableEq, Repr

/-- Opcodes referenced by RISCVInstrInfo.cpp, plus a return-like terminator
(RET), a debug-value marker (DBG_VALUE) and a generic non-terminator
(OTHER) so that blocks containing arbitrary other instructions can be
modelled. -/
inductive Opcode
  | J | JAL | JALR
  | BEQ | BNE | BLT | BLTU | BGE | BGEU | BGT | BGTU | BLE | BLEU
  | ADDI | ORI | LW | SW | LUI | LLI | ADD
  | RET | DBG_VALUE | OTHER
  deriving DecidableEq, Repr

/-- A machine operand: register id, 64-bit signed immediate, condition-code
immediate (a MachineOperand.CreateImm holding one of the CCMASK values),
frame index, or basic-block reference.  Basic blocks are identified by
number. -/
inductive Operand
  | reg (r : Nat)
  | imm (v : Int)
  | cond (c : CC)
  | fi (idx : Int)
  | mbb (b : Nat)
  deriving DecidableEq, Repr

/-- A machine instruction: an opcode plus its ordered operand list.  All
operands in this model are explicit operands. -/
structure Instr where
  opcode : Opcode
  operands : List Operand
  deriving DecidableEq, Repr

/-- MachineInstr::getOperand (with an out-of-range default; the source never
reads out of range on the shapes it is given). -/
def Instr.getOperand (mi : Instr) (n : Nat) : Operand :=
  mi.operands.getD n (Operand.imm 0)

/-- MachineOperand::isMBB. -/
def Operand.isMBB : Operand → Bool
  | .mbb _ => true
  | _ => false

/-- MachineOperand::getMBB. -/
def Operand.getMBB : Operand → Nat
  | .mbb b => b
  | _ => 0

/-- MachineOperand::isFI. -/
def Operand.isFI : Operand → Bool
  | .fi _ => true
  | _ => false

/-- MachineOperand::getIndex. -/
def Operand.getIndex : Operand → Int
  | .fi idx => idx
  | _ => 0

/-- MachineOperand::getImm. -/
def Operand.getImm : Operand → Int
  | .imm v => v
  | _ => 0

/-- MachineOperand::getReg (0 is the null register). -/
def Operand.getReg : Operand → Nat
  | .reg r => r
  | _ => 0

/-- MachineInstr::isDebugValue. -/
def isDebugValue (mi : Instr) : Bool :=
  match mi.opcode with
  | .DBG_VALUE => true
  | _ => false

/-- Modelled from the spec: TargetInstrInfo::isUnpredicatedTerminator consults
the per-opcode terminator flag of the static instruction descriptors, which
are generated from the target description files (RISCVGenInstrInfo.inc) that
are not part of this translation unit.  Per the spec, capability is "queried
via static lookup tables (opcode -> \x7bisBranch, isSimpleLoad, isSimpleStore,
isTerminator\x7d)"; the branch/jump and return opcodes are the terminators. -/
def isUnpredicatedTerminator (mi : Instr) : Bool :=
  match mi.opcode with
  | .J | .JAL | .JALR
  | .BEQ | .BNE | .BLT | .BLTU | .BGE | .BGEU | .BGT | .BGTU | .BLE | .BLEU
  | .RET => true
  | _ => false

/-- The TSFlags category bits queried by isSimpleMove. -/
inductive SimpleFlag
  | SimpleLoad | SimpleStore
  deriving DecidableEq, Repr

/-- Modelled from the spec: the SimpleLoad/SimpleStore TSFlags bits are
assigned in the target description files outside this translation unit; per
the spec (section 4.6), the word load/store pair LW/SW is the one class
mapping that carries them. -/
def hasSimpleFlag (mi : Instr) (flag : SimpleFlag) : Bool :=
  match flag, mi.opcode with
  | .SimpleLoad, .LW => true
  | .SimpleStore, .SW => true
  | _, _ => false

/-- isSimpleMove (RISCVInstrInfo.cpp lines 35-45): if MI is a simple load or
store for a frame object, return the register it loads or stores together
with the frame index; return 0 (here: none) otherwise. -/
def isSimpleMove (mi : Instr) (flag : SimpleFlag) : Option (Nat × Int) :=
  if hasSimpleFlag mi flag
      && (mi.getOperand 1).isFI
      && ((mi.getOperand 2).getImm == 0)
      && ((mi.getOperand 3).getReg == 0) then
    some ((mi.getOperand 0).getReg, (mi.getOperand 1).getIndex)
  else
    none

/-- RISCVInstrInfo::isLoadFromStackSlot. -/
def isLoadFromStackSlot (mi : Instr) : Option (Nat × Int) :=
  isSimpleMove mi SimpleFlag.SimpleLoad

/-- RISCVInstrInfo::isStoreToStackSlot. -/
def isStoreToStackSlot (mi : Instr) : Option (Nat × Int) :=
  isSimpleMove mi SimpleFlag.SimpleStore

/-- RISCVInstrInfo::isBranch (lines 348-404): maps a branch instruction to
its condition code and a reference to its target operand; returns none for a
non-branch.  The unconditional forms J/JAL/JALR report CCMASK_ANY with
operand 0; the two-register conditional forms report their code with
operand 2.  The default case asserts that the static descriptor does not
claim the instruction is a branch; in this model the descriptor branch flag
coincides with this table, so the assert cannot fire. -/
def isBranch (mi : Instr) : Option (CC × Operand) :=
  match mi.opcode with
  | .J | .JAL | .JALR => some (CC.ANY, mi.getOperand 0)
  | .BEQ => some (CC.EQ, mi.getOperand 2)
  | .BNE => some (CC.NE, mi.getOperand 2)
  | .BLT => some (CC.LT, mi.getOperand 2)
  | .BLTU => some (CC.LTU, mi.getOperand 2)
  | .BGE => some (CC.GE, mi.getOperand 2)
  | .BGEU => some (CC.GEU, mi.getOperand 2)
  | .BGT => some (CC.GT, mi.getOperand 2)
  | .BGTU => some (CC.GTU, mi.getOperand 2)
  | .BLE => some (CC.LE, mi.getOperand 2)
  | .BLEU => some (CC.LEU, mi.getOperand 2)
  | _ => none

/-- The outcome of RISCVInstrInfo::AnalyzeBranch: the boolean result of the
C++ function (true means the block is unanalyzable), the TBB/FBB output
parameters, the accumulated condition operand vector, and the block's
instruction list after any modification the analysis performed. -/
structure AnalyzeResult where
  unanalyzable : Bool
  tbb : Option Nat
  fbb : Option Nat
  cond : List Operand
  instrs : List Instr
  deriving DecidableEq, Repr

/-- The loop of RISCVInstrInfo::AnalyzeBranch (lines 84-161), walking the
block bottom-up.  `revRemaining` is the not-yet-scanned part of the block in
reverse (bottom-up) order; `below` is the already-scanned part that is still
in the block, in program order.  Erasing the instructions after an
unconditional jump corresponds to clearing `below`; erasing the jump itself
corresponds to not pushing it onto `below`. -/
def analyzeLoop (allowModify : Bool) (layoutSucc : Option Nat) :
    List Instr → List Instr → Option Nat → Option Nat → List Operand →
    AnalyzeResult
  | [], below, tbb, fbb, cond =>
      -- I == MBB.begin(): fall out of the loop, return false.
      ⟨false, tbb, fbb, cond, below⟩
  | i :: above, below, tbb, fbb, cond =>
      if isDebugValue i then
        analyzeLoop allowModify layoutSucc above (i :: below) tbb fbb cond
      else if isUnpredicatedTerminator i = false then
        -- Working from the bottom, a non-terminator instruction ends the scan.
        ⟨false, tbb, fbb, cond, above.reverse ++ i :: below⟩
      else
        match isBranch i with
        | none =>
            -- A terminator that isn't a branch: return true.
            ⟨true, tbb, fbb, cond, above.reverse ++ i :: below⟩
        | some (thisCond, thisTarget) =>
            if thisTarget.isMBB = false then
              -- Can't handle indirect branches: return true.
              ⟨true, tbb, fbb, cond, above.reverse ++ i :: below⟩
            else if thisCond = CC.ANY then
              if allowModify = false then
                -- TBB = ThisTarget->getMBB(); continue;
                analyzeLoop allowModify layoutSucc above (i :: below)
                  (some thisTarget.getMBB) fbb cond
              else if layoutSucc = some thisTarget.getMBB then
                -- Erase everything after the jump, clear Cond, FBB = 0,
                -- then delete the jump itself (fall-through) and restart
                -- the scan from the new block end.
                analyzeLoop allowModify layoutSucc above [] none none []
              else
                -- Erase everything after the jump, clear Cond, FBB = 0,
                -- TBB = ThisTarget->getMBB(); continue;
                analyzeLoop allowModify layoutSucc above [i]
                  (some thisTarget.getMBB) none []
            else if cond = [] then
              -- First conditional branch seen from the bottom:
              -- FBB = TBB; TBB = target; Cond = code :: explicit operands.
              analyzeLoop allowModify layoutSucc above (i :: below)
                (some thisTarget.getMBB) tbb
                (Operand.cond thisCond :: i.operands)
            else if tbb ≠ some thisTarget.getMBB then
              -- Mixed-destination conditional branches: return true.
              ⟨true, tbb, fbb, cond, above.reverse ++ i :: below⟩
            else if cond.getD 0 (Operand.imm 0) = Operand.cond thisCond then
              -- Same condition again: leave it alone, continue.
              analyzeLoop allowModify layoutSucc above (i :: below) tbb fbb cond
            else
              -- Differing condition (FIXME in the source: try combining
              -- conditions like X86 does): also left alone, continue.
              analyzeLoop allowModify layoutSucc above (i :: below) tbb fbb cond

/-- RISCVInstrInfo::AnalyzeBranch (lines 75-164).  `layoutSucc` is the number
of the block's layout successor, if any. -/
def AnalyzeBranch (instrs : List Instr) (layoutSucc : Option Nat)
    (allowModify : Bool) : AnalyzeResult :=
  analyzeLoop allowModify layoutSucc instrs.reverse [] none none []

/-- The fatal (assert / llvm_unreachable) exits of
RISCVInstrInfo::InsertBranch. -/
inductive InsertErr
  | FallthroughInsert
  | TooManyComponents
  | InvalidConditionForInsert
  | InvalidBranchShape
  deriving DecidableEq, Repr

/-- RISCVInstrInfo::InsertBranch (lines 190-246).  Appends either one
unconditional jump (empty condition tuple) or one conditional branch whose
opcode is chosen by the tuple's condition code, and returns the instruction
count 1.  The asserts and llvm_unreachable calls of the source are embedded
as errors: a null TBB (fallthrough insert), more than four condition
components, a condition code outside the six hardware-native ones, and a set
false target (two-way branch) are all fatal. -/
def InsertBranch (instrs : List Instr) (tbb fbb : Option Nat)
    (cond : List Operand) : Except InsertErr (List Instr × Nat) :=
  match tbb with
  | none => Except.error InsertErr.FallthroughInsert
  | some t =>
    if cond.length > 4 then Except.error InsertErr.TooManyComponents
    else
      match cond with
      | [] =>
        match fbb with
        | some _ => Except.error InsertErr.InvalidBranchShape
        | none => Except.ok (instrs ++ [⟨Opcode.J, [Operand.mbb t]⟩], 1)
      | c0 :: _ =>
        let opc : Except InsertErr Opcode :=
          match c0 with
          | Operand.cond CC.EQ => Except.ok Opcode.BEQ
          | Operand.cond CC.NE => Except.ok Opcode.BNE
          | Operand.cond CC.LT => Except.ok Opcode.BLT
          | Operand.cond CC.LTU => Except.ok Opcode.BLTU
          | Operand.cond CC.GE => Except.ok Opcode.BGE
          | Operand.cond CC.GEU => Except.ok Opcode.BGEU
          | _ => Except.error InsertErr.InvalidConditionForInsert
        match opc with
        | Except.error e => Except.error e
        | Except.ok op =>
          match fbb with
          | some _ => Except.error InsertErr.InvalidBranchShape
          | none =>
            Except.ok (instrs ++
              [⟨op, [Operand.reg ((cond.getD 1 (Operand.imm 0)).getReg),
                     Operand.reg ((cond.getD 2 (Operand.imm 0)).getReg),
                     Operand.mbb t]⟩], 1)

/-- The fatal exit of RISCVInstrInfo::ReverseBranchCondition. -/
inductive ReverseErr
  | InvalidCondition
  deriving DecidableEq, Repr

/-- The condition-code switch of RISCVInstrInfo::ReverseBranchCondition
(lines 311-345): the total inversion on the ten comparison codes; the
default case (which CCMASK_ANY falls into) is llvm_unreachable. -/
def invertCC : CC → Option CC
  | .EQ => some .NE
  | .NE => some .EQ
  | .LT => some .GE
  | .GE => some .LT
  | .LTU => some .GEU
  | .GEU => some .LTU
  | .GT => some .LE
  | .LE => some .GT
  | .GTU => some .LEU
  | .LEU => some .GTU
  | .ANY => none

/-- RISCVInstrInfo::ReverseBranchCondition (lines 307-346): switches only the
condition code held in Cond[0], not the registers; the size assert and the
llvm_unreachable default are embedded as the InvalidCondition error. -/
def ReverseBranchCondition (cond : List Operand) :
    Except ReverseErr (List Operand) :=
  if cond.length > 4 then Except.error ReverseErr.InvalidCondition
  else
    match cond with
    | Operand.cond c :: rest =>
      match invertCC c with
      | some c2 => Except.ok (Operand.cond c2 :: rest)
      | none => Except.error ReverseErr.InvalidCondition
    | _ => Except.error ReverseErr.InvalidCondition

/-- llvm::isInt<N>(x): x fits the N-bit signed range. -/
def isInt (n : Nat) (x : Int) : Bool :=
  decide (-(2 ^ (n - 1)) ≤ x ∧ x < 2 ^ (n - 1))

/-- The register RISCV::zero (the architectural zero register). -/
def zeroReg : Nat := 0

/-- The bit-11 test `Value & 0x800` of loadImmediate on a two's-complement
64-bit value: bit 11 of x is set exactly when the low 12 bits of x, as a
nonnegative residue, are at least 0x800.  On Int, `%` is Int.emod, whose
result for a positive modulus is the nonnegative residue, matching the
two's-complement low bits. -/
def bit11 (x : Int) : Bool :=
  decide (2048 ≤ x % 4096)

/-- The upper field of loadImmediate (lines 447-449):
`(Value & 0x800) ? 0xFFFFF & (Value >> 12) : 0xFFFFF & ((Value >> 12) + 1)`.
The arithmetic right shift of a 64-bit value by 12 is flooring division by
4096, which for the positive divisor 4096 is Int.ediv (`/` on Int); masking
with 0xFFFFF is the nonnegative residue modulo 2^20. -/
def upper20 (x : Int) : Int :=
  if bit11 x then (x / 4096) % 1048576
  else (x / 4096 + 1) % 1048576

/-- The lower field of loadImmediate (line 450): `0xFFF & Value`, the
nonnegative residue modulo 2^12. -/
def lower12 (x : Int) : Int :=
  x % 4096

/-- The fatal exit of RISCVInstrInfo::loadImmediate
(`assert(isInt<32>(Value) && "Huge values not handled yet")`). -/
inductive LoadImmErr
  | ConstantTooLarge
  deriving DecidableEq, Repr

/-- RISCVInstrInfo::loadImmediate (lines 430-456).  `reg` stands for the
fresh virtual register created for the constant; the emitted instruction
sequence is returned.  A 12-bit value is one ADDI from the zero register; a
32-bit value is LUI of the upper field followed by LLI of the lower field
into the same register; anything larger trips the assert. -/
def loadImmediate (reg : Nat) (value : Int) :
    Except LoadImmErr (List Instr) :=
  if isInt 12 value then
    Except.ok [⟨Opcode.ADDI, [Operand.reg reg, Operand.reg zeroReg,
                              Operand.imm value]⟩]
  else if isInt 32 value then
    Except.ok [⟨Opcode.LUI, [Operand.reg reg, Operand.imm (upper20 value)]⟩,
               ⟨Opcode.LLI, [Operand.reg reg, Operand.reg zeroReg,
                             Operand.imm (lower12 value)]⟩]
  else
    Except.error LoadImmErr.ConstantTooLarge

/-!  Theorems checking the specification claims.  -/

/-- C4: condition inversion is a total involution on the ten non-ANY codes,
with the pairing EQ-NE, LT-GE, LT|U-GE|U, GT-LE, GT|U-LE|U; inverting the
ANY pseudo-condition fails with InvalidCondition; and inversion replaces
only the code component of the tuple, leaving every register/operand
component unchanged. -/
theorem invert_involution (c : CC) (h : c ≠ CC.ANY) :
    (∃ c2, invertCC c = some c2 ∧ invertCC c2 = some c) ∧
    (invertCC CC.EQ = some CC.NE ∧ invertCC CC.NE = some CC.EQ ∧
     invertCC CC.LT = some CC.GE ∧ invertCC CC.GE = some CC.LT ∧
     invertCC CC.LTU = some CC.GEU ∧ invertCC CC.GEU = some CC.LTU ∧
     invertCC CC.GT = some CC.LE ∧ invertCC CC.LE = some CC.GT ∧
     invertCC CC.GTU = some CC.LEU ∧ invertCC CC.LEU = some CC.GTU) ∧
    invertCC CC.ANY = none ∧
    (∀ rest : List Operand, rest.length ≤ 3 →
      ReverseBranchCondition (Operand.cond CC.ANY :: rest) =
        Except.error ReverseErr.InvalidCondition) ∧
    (∀ (c1 c2 : CC) (rest : List Operand), rest.length ≤ 3 →
      invertCC c1 = some c2 →
      ReverseBranchCondition (Operand.cond c1 :: rest) =
        Except.ok (Operand.cond c2 :: rest)) := by
  refine ⟨?_, by decide, by decide, ?_, ?_⟩
  · cases c
    case ANY => exact absurd rfl h
    all_goals exact ⟨_, rfl, rfl⟩
  · intro rest hlen
    unfold ReverseBranchCondition
    rw [if_neg (by simp; omega)]
    rfl
  · intro c1 c2 rest hlen hinv
    unfold ReverseBranchCondition
    rw [if_neg (by simp; omega)]
    show (match invertCC c1 with
          | some c2 => Except.ok (Operand.cond c2 :: rest)
          | none => Except.error ReverseErr.InvalidCondition) =
        Except.ok (Operand.cond c2 :: rest)
    rw [hinv]

/-- Witness for C4 at the code LT with a two-register tuple. -/
theorem invert_involution_witness :
    (∃ c2, invertCC CC.LT = some c2 ∧ invertCC c2 = some CC.LT) ∧
    ReverseBranchCondition [Operand.cond CC.ANY] =
      Except.error ReverseErr.InvalidCondition ∧
    ReverseBranchCondition [Operand.cond CC.LT, Operand.reg 1, Operand.reg 2] =
      Except.ok [Operand.cond CC.GE, Operand.reg 1, Operand.reg 2] := by
  obtain ⟨h1, _, _, h4, h5⟩ := invert_involution CC.LT (by decide)
  exact ⟨h1, h4 [] (by decide),
         h5 CC.LT CC.GE [Operand.reg 1, Operand.reg 2] (by decide) (by decide)⟩

/-- C5: InsertBranch's complete shape contract.  With an empty condition
tuple it emits exactly one unconditional jump to the true target and returns
1; a set false target is fatal with InvalidBranchShape in both the
unconditional and the conditional case; with a non-empty tuple it emits
exactly one conditional branch whose opcode is the direct mapping of the six
hardware-native codes; and any other code is fatal with
InvalidConditionForInsert. -/
theorem InsertBranch_contract :
    (∀ (instrs : List Instr) (t : Nat),
      InsertBranch instrs (some t) none [] =
        Except.ok (instrs ++ [⟨Opcode.J, [Operand.mbb t]⟩], 1)) ∧
    (∀ (instrs : List Instr) (t f : Nat),
      InsertBranch instrs (some t) (some f) [] =
        Except.error InsertErr.InvalidBranchShape) ∧
    (∀ (instrs : List Instr) (t f r1 r2 : Nat) (cc : CC),
      cc ∈ [CC.EQ, CC.NE, CC.LT, CC.LTU, CC.GE, CC.GEU] →
      InsertBranch instrs (some t) (some f)
          [Operand.cond cc, Operand.reg r1, Operand.reg r2] =
        Except.error InsertErr.InvalidBranchShape) ∧
    (∀ (instrs : List Instr) (t r1 r2 : Nat) (cc : CC) (op : Opcode),
      (cc, op) ∈ [(CC.EQ, Opcode.BEQ), (CC.NE, Opcode.BNE),
                  (CC.LT, Opcode.BLT), (CC.LTU, Opcode.BLTU),
                  (CC.GE, Opcode.BGE), (CC.GEU, Opcode.BGEU)] →
      InsertBranch instrs (some t) none
          [Operand.cond cc, Operand.reg r1, Operand.reg r2] =
        Except.ok (instrs ++
          [⟨op, [Operand.reg r1, Operand.reg r2, Operand.mbb t]⟩], 1)) ∧
    (∀ (instrs : List Instr) (t r1 r2 : Nat) (fbb : Option Nat) (cc : CC),
      cc ∈ [CC.GT, CC.GTU, CC.LE, CC.LEU, CC.ANY] →
      InsertBranch instrs (some t) fbb
          [Operand.cond cc, Operand.reg r1, Operand.reg r2] =
        Except.error InsertErr.InvalidConditionForInsert) := by
  refine ⟨fun instrs t => rfl, fun instrs t f => rfl, ?_, ?_, ?_⟩
  · intro instrs t f r1 r2 cc h
    fin_cases h <;> rfl
  · intro instrs t r1 r2 cc op h
    fin_cases h <;> rfl
  · intro instrs t r1 r2 fbb cc h
    fin_cases h <;> cases fbb <;> rfl

/-- Witness for C5: one instantiation of each clause of the contract. -/
theorem InsertBranch_contract_witness :
    InsertBranch [] (some 3) none [] =
      Except.ok ([⟨Opcode.J, [Operand.mbb 3]⟩], 1) ∧
    InsertBranch [] (some 3) (some 4) [] =
      Except.error InsertErr.InvalidBranchShape ∧
    InsertBranch [] (some 3) (some 4)
        [Operand.cond CC.EQ, Operand.reg 1, Operand.reg 2] =
      Except.error InsertErr.InvalidBranchShape ∧
    InsertBranch [] (some 3) none
        [Operand.cond CC.GE, Operand.reg 1, Operand.reg 2] =
      Except.ok ([⟨Opcode.BGE, [Operand.reg 1, Operand.reg 2, Operand.mbb 3]⟩], 1) ∧
    InsertBranch [] (some 3) none
        [Operand.cond CC.LE, Operand.reg 1, Operand.reg 2] =
      Except.error InsertErr.InvalidConditionForInsert := by
  obtain ⟨h1, h2, h3, h4, h5⟩ := InsertBranch_contract
  exact ⟨h1 [] 3, h2 [] 3 4, h3 [] 3 4 1 2 CC.EQ (by decide),
         h4 [] 3 1 2 CC.GE Opcode.BGE (by decide),
         h5 [] 3 1 2 none CC.LE (by decide)⟩

/-- C9: the frame-slot move classifier is narrow.  An instruction is
classified as a simple move only if its opcode carries the queried
load/store flag, its second operand is a frame index, its displacement
operand is literally zero and its base-register operand is the null
register; any instruction with a nonzero displacement operand is rejected
even when the frame-index operand is present; and
isLoadFromStackSlot/isStoreToStackSlot are exactly isSimpleMove with the
SimpleLoad/SimpleStore flag. -/
theorem isSimpleMove_narrow :
    (∀ (mi : Instr) (flag : SimpleFlag) (r : Nat) (fidx : Int),
      isSimpleMove mi flag = some (r, fidx) →
      hasSimpleFlag mi flag = true ∧ (mi.getOperand 1).isFI = true ∧
      (mi.getOperand 2).getImm = 0 ∧ (mi.getOperand 3).getReg = 0 ∧
      r = (mi.getOperand 0).getReg ∧ fidx = (mi.getOperand 1).getIndex) ∧
    (∀ (mi : Instr) (flag : SimpleFlag),
      (mi.getOperand 2).getImm ≠ 0 → isSimpleMove mi flag = none) ∧
    (∀ mi : Instr,
      isLoadFromStackSlot mi = isSimpleMove mi SimpleFlag.SimpleLoad) ∧
    (∀ mi : Instr,
      isStoreToStackSlot mi = isSimpleMove mi SimpleFlag.SimpleStore) := by
  refine ⟨?_, ?_, fun mi => rfl, fun mi => rfl⟩
  · intro mi flag r fidx h
    unfold isSimpleMove at h
    split at h
    · rename_i hc
      simp only [Bool.and_eq_true, beq_iff_eq] at hc
      simp only [Option.some.injEq, Prod.mk.injEq] at h
      exact ⟨hc.1.1.1, hc.1.1.2, hc.1.2, hc.2, h.1.symm, h.2.symm⟩
    · exact absurd h (by simp)
  · intro mi flag hne
    unfold isSimpleMove
    split
    · rename_i hc
      simp only [Bool.and_eq_true, beq_iff_eq] at hc
      exact absurd hc.1.2 hne
    · rfl

/-- Witness for C9: a word load whose displacement operand is 4 is not a
simple move even though its second operand is a frame index. -/
theorem isSimpleMove_narrow_witness :
    isSimpleMove ⟨Opcode.LW, [Operand.reg 5, Operand.fi 0, Operand.imm 4,
                              Operand.reg 0]⟩ SimpleFlag.SimpleLoad = none :=
  isSimpleMove_narrow.2.1 _ SimpleFlag.SimpleLoad (by decide)

/-- Counterexample to C2 as stated: at v = -2^31 we have |v| ≥ 2^31, yet
loadImmediate does not fail with ConstantTooLarge — isInt<32>(-2^31) holds,
so it emits the two-instruction sequence. -/
theorem loadImmediate_huge_counterexample :
    2 ^ 31 ≤ (-2147483648 : Int).natAbs ∧
    loadImmediate 2 (-2147483648) =
      Except.ok [⟨Opcode.LUI, [Operand.reg 2, Operand.imm 524289]⟩,
                 ⟨Opcode.LLI, [Operand.reg 2, Operand.reg zeroReg,
                               Operand.imm 0]⟩] := by
  constructor
  · norm_num
  · rfl

/-- C2 as amended: one add-immediate-from-zero instruction for the 12-bit
signed range, the two-instruction LUI/LLI sequence into the same fresh
register for the remaining 32-bit signed range, and the ConstantTooLarge
failure exactly for v ≥ 2^31 or v < -2^31 (the claim's boundary |v| ≥ 2^31
wrongly placed v = -2^31 in the failing class). -/
theorem loadImmediate_count (fresh : Nat) (v : Int) :
    (-(2 ^ 11) ≤ v ∧ v < 2 ^ 11 →
      loadImmediate fresh v =
        Except.ok [⟨Opcode.ADDI, [Operand.reg fresh, Operand.reg zeroReg,
                                  Operand.imm v]⟩]) ∧
    ((2 ^ 11 ≤ v ∧ v < 2 ^ 31) ∨ (-(2 ^ 31) ≤ v ∧ v < -(2 ^ 11)) →
      loadImmediate fresh v =
        Except.ok [⟨Opcode.LUI, [Operand.reg fresh, Operand.imm (upper20 v)]⟩,
                   ⟨Opcode.LLI, [Operand.reg fresh, Operand.reg zeroReg,
                                 Operand.imm (lower12 v)]⟩]) ∧
    (2 ^ 31 ≤ v ∨ v < -(2 ^ 31) →
      loadImmediate fresh v = Except.error LoadImmErr.ConstantTooLarge) := by
  refine ⟨?_, ?_, ?_⟩
  · intro h
    have h1 : -2048 ≤ v ∧ v < 2048 := by norm_num at h; exact h
    have h12 : isInt 12 v = true := by
      unfold isInt
      simp only [decide_eq_true_eq]
      norm_num
      omega
    unfold loadImmediate
    rw [if_pos h12]
  · intro h
    have h1 : (2048 ≤ v ∧ v < 2147483648) ∨ (-2147483648 ≤ v ∧ v < -2048) := by
      norm_num at h; exact h
    have h12 : isInt 12 v = false := by
      unfold isInt
      simp only [decide_eq_false_iff_not]
      norm_num
      omega
    have h32 : isInt 32 v = true := by
      unfold isInt
      simp only [decide_eq_true_eq]
      norm_num
      omega
    unfold loadImmediate
    rw [if_neg (by simp [h12]), if_pos h32]
  · intro h
    have h1 : 2147483648 ≤ v ∨ v < -2147483648 := by norm_num at h; exact h
    have h12 : isInt 12 v = false := by
      unfold isInt
      simp only [decide_eq_false_iff_not]
      norm_num
      omega
    have h32 : isInt 32 v = false := by
      unfold isInt
      simp only [decide_eq_false_iff_not]
      norm_num
      omega
    unfold loadImmediate
    rw [if_neg (by simp [h12]), if_neg (by simp [h32])]

/-- Witness for the amended C2 at one value from each of the three
classes. -/
theorem loadImmediate_count_witness :
    loadImmediate 3 7 =
      Except.ok [⟨Opcode.ADDI, [Operand.reg 3, Operand.reg zeroReg,
                                Operand.imm 7]⟩] ∧
    loadImmediate 3 6000 =
      Except.ok [⟨Opcode.LUI, [Operand.reg 3, Operand.imm (upper20 6000)]⟩,
                 ⟨Opcode.LLI, [Operand.reg 3, Operand.reg zeroReg,
                               Operand.imm (lower12 6000)]⟩] ∧
    loadImmediate 3 2147483648 = Except.error LoadImmErr.ConstantTooLarge :=
  ⟨(loadImmediate_count 3 7).1 (by norm_num),
   (loadImmediate_count 3 6000).2.1 (Or.inl (by norm_num)),
   (loadImmediate_count 3 2147483648).2.2 (Or.inl (by norm_num))⟩

/-- The upper field of loadImmediate, rewritten in the spec's terms: the raw
upper 20 bits of v when bit 11 of v is set, and the raw upper 20 bits plus
one when bit 11 is clear. -/
theorem upper20_eq (v : Int) :
    upper20 v =
      (if (v / 2 ^ 11) % 2 = 1
       then (v / 2 ^ 12) % 2 ^ 20
       else (v / 2 ^ 12 + 1) % 2 ^ 20) := by
  unfold upper20 bit11
  norm_num
  by_cases h : 2048 ≤ v % 4096
  · rw [if_pos h, if_pos (by omega)]
  · rw [if_neg h, if_neg (by omega)]

/-- C3: the high/low split rule of the immediate encoder.  For every value
in the two-instruction range, the emitted upper 20-bit field is
(v >> 12) & 0xFFFFF when bit 11 of v is set and ((v >> 12) + 1) & 0xFFFFF
when bit 11 is clear, and the lower field is v & 0xFFF; in particular,
materializing 5000 emits LUI with operand 2 followed by LLI with operand
0x388 = 904. -/
theorem loadImmediate_split (fresh : Nat) (v : Int)
    (h32 : isInt 32 v = true) (h12 : isInt 12 v = false) :
    loadImmediate fresh v =
      Except.ok [⟨Opcode.LUI, [Operand.reg fresh, Operand.imm
          (if (v / 2 ^ 11) % 2 = 1
           then (v / 2 ^ 12) % 2 ^ 20
           else (v / 2 ^ 12 + 1) % 2 ^ 20)]⟩,
        ⟨Opcode.LLI, [Operand.reg fresh, Operand.reg zeroReg,
          Operand.imm (v % 2 ^ 12)]⟩] ∧
    loadImmediate fresh 5000 =
      Except.ok [⟨Opcode.LUI, [Operand.reg fresh, Operand.imm 2]⟩,
                 ⟨Opcode.LLI, [Operand.reg fresh, Operand.reg zeroReg,
                               Operand.imm 904]⟩] := by
  constructor
  · unfold loadImmediate
    rw [if_neg (by simp [h12]), if_pos h32, ← upper20_eq]
    norm_num
    rfl
  · rfl

/-- Witness for C3 at v = 5000. -/
theorem loadImmediate_split_witness :
    loadImmediate 1 5000 =
      Except.ok [⟨Opcode.LUI, [Operand.reg 1, Operand.imm
          (if ((5000 : Int) / 2 ^ 11) % 2 = 1
           then ((5000 : Int) / 2 ^ 12) % 2 ^ 20
           else ((5000 : Int) / 2 ^ 12 + 1) % 2 ^ 20)]⟩,
        ⟨Opcode.LLI, [Operand.reg 1, Operand.reg zeroReg,
          Operand.imm ((5000 : Int) % 2 ^ 12)]⟩] :=
  (loadImmediate_split 1 5000 (by decide) (by decide)).1

/-- With modification disallowed, the analysis loop erases nothing: the
final instruction list is always the scanned-and-kept part followed by the
part below the scan point, i.e. exactly what it started with. -/
theorem analyzeLoop_noModify (ls : Option Nat) :
    ∀ (rl below : List Instr) (tbb fbb : Option Nat) (cond : List Operand),
      (analyzeLoop false ls rl below tbb fbb cond).instrs =
        rl.reverse ++ below := by
  intro rl
  induction rl with
  | nil => intro below tbb fbb cond; simp [analyzeLoop]
  | cons i rest ih =>
    intro below tbb fbb cond
    by_cases h1 : isDebugValue i
    · simp [analyzeLoop, h1, ih]
    · rw [Bool.not_eq_true] at h1
      by_cases h2 : isUnpredicatedTerminator i
      · rcases hbr : isBranch i with _ | ⟨tc, tgt⟩
        · simp [analyzeLoop, h1, h2, hbr]
        · by_cases h3 : tgt.isMBB
          · by_cases h4 : tc = CC.ANY
            · simp [analyzeLoop, h1, h2, hbr, h3, h4, ih]
            · by_cases h5 : cond = []
              · simp [analyzeLoop, h1, h2, hbr, h3, h4, h5, ih]
              · by_cases h6 : tbb = some tgt.getMBB
                · simp [analyzeLoop, h1, h2, hbr, h3, h4, h5, h6, ih]
                · simp [analyzeLoop, h1, h2, hbr, h3, h4, h5, h6]
          · rw [Bool.not_eq_true] at h3
            simp [analyzeLoop, h1, h2, hbr, h3]
      · rw [Bool.not_eq_true] at h2
        simp [analyzeLoop, h1, h2]

/-- C10 (implicit frame condition): AnalyzeBranch invoked with modification
disallowed leaves the block entirely unchanged — the returned instruction
list is the input list; every deletion happens only on the
modification-allowed path. -/
theorem AnalyzeBranch_noModify_pure (instrs : List Instr) (ls : Option Nat) :
    (AnalyzeBranch instrs ls false).instrs = instrs := by
  unfold AnalyzeBranch
  rw [analyzeLoop_noModify]
  simp

/-- C6: fallthrough canonicalization.  On a block whose trailing terminator
run is a single unconditional jump to the block's layout successor,
AnalyzeBranch with modification allowed deletes the jump and returns
successfully with both targets unset and an empty condition. -/
theorem AnalyzeBranch_fallthrough (pre : List Instr) (t : Nat)
    (hpre : pre = [] ∨ ∃ init l, pre = init ++ [l] ∧
      isDebugValue l = false ∧ isUnpredicatedTerminator l = false) :
    AnalyzeBranch (pre ++ [⟨Opcode.J, [Operand.mbb t]⟩]) (some t) true =
      ⟨false, none, none, [], pre⟩ := by
  unfold AnalyzeBranch
  rw [List.reverse_append]
  have hstep :
      analyzeLoop true (some t)
        ([(⟨Opcode.J, [Operand.mbb t]⟩ : Instr)].reverse ++ pre.reverse)
        [] none none [] =
      analyzeLoop true (some t) pre.reverse [] none none [] := by
    simp [analyzeLoop, isDebugValue, isUnpredicatedTerminator, isBranch,
          Instr.getOperand, Operand.isMBB, Operand.getMBB]
  rw [hstep]
  rcases hpre with h | ⟨init, l, hpe, hdbg, hterm⟩
  · subst h
    rfl
  · subst hpe
    rw [List.reverse_append]
    simp [analyzeLoop, hdbg, hterm]

/-- Witness for C6 with a one-instruction prefix. -/
theorem AnalyzeBranch_fallthrough_witness :
    AnalyzeBranch [⟨Opcode.ADD, [Operand.reg 1, Operand.reg 2, Operand.reg 3]⟩,
                   ⟨Opcode.J, [Operand.mbb 9]⟩] (some 9) true =
      ⟨false, none, none, [],
       [⟨Opcode.ADD, [Operand.reg 1, Operand.reg 2, Operand.reg 3]⟩]⟩ :=
  AnalyzeBranch_fallthrough
    [⟨Opcode.ADD, [Operand.reg 1, Operand.reg 2, Operand.reg 3]⟩] 9
    (Or.inr ⟨[], _, rfl, rfl, rfl⟩)

/-- C7: on a block ending in a conditional branch-less-than on r1, r2 to L1
followed by an unconditional jump to L2, AnalyzeBranch with modification
disallowed succeeds with trueTarget L1, falseTarget L2 and a condition
tuple with code LT and operands r1, r2, leaving the block unchanged. -/
theorem AnalyzeBranch_cond_then_jump (pre : List Instr)
    (r1 r2 bb1 bb2 : Nat) (ls : Option Nat)
    (hpre : pre = [] ∨ ∃ init l, pre = init ++ [l] ∧
      isDebugValue l = false ∧ isUnpredicatedTerminator l = false) :
    AnalyzeBranch
        (pre ++ [⟨Opcode.BLT, [Operand.reg r1, Operand.reg r2, Operand.mbb bb1]⟩,
                 ⟨Opcode.J, [Operand.mbb bb2]⟩]) ls false =
      ⟨false, some bb1, some bb2,
       [Operand.cond CC.LT, Operand.reg r1, Operand.reg r2, Operand.mbb bb1],
       pre ++ [⟨Opcode.BLT, [Operand.reg r1, Operand.reg r2, Operand.mbb bb1]⟩,
               ⟨Opcode.J, [Operand.mbb bb2]⟩]⟩ := by
  unfold AnalyzeBranch
  rw [List.reverse_append]
  have hstep :
      analyzeLoop false ls
        ([(⟨Opcode.BLT, [Operand.reg r1, Operand.reg r2, Operand.mbb bb1]⟩ : Instr),
          ⟨Opcode.J, [Operand.mbb bb2]⟩].reverse ++ pre.reverse)
        [] none none [] =
      analyzeLoop false ls pre.reverse
        [⟨Opcode.BLT, [Operand.reg r1, Operand.reg r2, Operand.mbb bb1]⟩,
         ⟨Opcode.J, [Operand.mbb bb2]⟩]
        (some bb1) (some bb2)
        [Operand.cond CC.LT, Operand.reg r1, Operand.reg r2, Operand.mbb bb1] := by
    simp [analyzeLoop, isDebugValue, isUnpredicatedTerminator, isBranch,
          Instr.getOperand, Operand.isMBB, Operand.getMBB]
  rw [hstep]
  rcases hpre with h | ⟨init, l, hpe, hdbg, hterm⟩
  · subst h
    rfl
  · subst hpe
    rw [List.reverse_append]
    simp [analyzeLoop, hdbg, hterm]

/-- Witness for C7 with an empty prefix. -/
theorem AnalyzeBranch_cond_then_jump_witness :
    AnalyzeBranch
        [⟨Opcode.BLT, [Operand.reg 1, Operand.reg 2, Operand.mbb 10]⟩,
         ⟨Opcode.J, [Operand.mbb 20]⟩] none false =
      ⟨false, some 10, some 20,
       [Operand.cond CC.LT, Operand.reg 1, Operand.reg 2, Operand.mbb 10],
       [⟨Opcode.BLT, [Operand.reg 1, Operand.reg 2, Operand.mbb 10]⟩,
        ⟨Opcode.J, [Operand.mbb 20]⟩]⟩ :=
  AnalyzeBranch_cond_then_jump [] 1 2 10 20 none (Or.inl rfl)

/-- C1: round-trip through the control-flow rewriter.  Inserting a
two-register conditional branch with any of the six hardware-native codes
into a freshly constructed empty block with a single true target, then
running AnalyzeBranch on that block, recovers a condition tuple whose code
equals the inserted code and a trueTarget equal to the inserted target. -/
theorem insert_analyze_roundtrip (cc : CC) (r1 r2 t : Nat)
    (ls : Option Nat) (am : Bool)
    (h : cc ∈ [CC.EQ, CC.NE, CC.LT, CC.LTU, CC.GE, CC.GEU]) :
    ∃ blk : List Instr,
      InsertBranch [] (some t) none
          [Operand.cond cc, Operand.reg r1, Operand.reg r2] =
        Except.ok (blk, 1) ∧
      (AnalyzeBranch blk ls am).unanalyzable = false ∧
      (AnalyzeBranch blk ls am).cond.getD 0 (Operand.imm 0) =
        Operand.cond cc ∧
      (AnalyzeBranch blk ls am).tbb = some t := by
  fin_cases h <;> exact ⟨_, rfl, rfl, rfl, rfl⟩

/-- Witness for C1 at the code GEU. -/
theorem insert_analyze_roundtrip_witness :
    ∃ blk : List Instr,
      InsertBranch [] (some 4) none
          [Operand.cond CC.GEU, Operand.reg 1, Operand.reg 2] =
        Except.ok (blk, 1) ∧
      (AnalyzeBranch blk none false).unanalyzable = false ∧
      (AnalyzeBranch blk none false).cond.getD 0 (Operand.imm 0) =
        Operand.cond CC.GEU ∧
      (AnalyzeBranch blk none false).tbb = some 4 :=
  insert_analyze_roundtrip CC.GEU 1 2 4 none false (by decide)

/-- An instruction allowed between the two conditional branches of the
amended C8: a debug value or another conditional branch (any target
operand). -/
def MidOk (i : Instr) : Prop :=
  isDebugValue i = true ∨ ∃ c t, isBranch i = some (c, t) ∧ c ≠ CC.ANY

/-- An instruction allowed below the lower conditional branch of the
amended C8: a debug value or any terminator, so that the two conditional
branches belong to the block's trailing terminator run. -/
def PostOk (i : Instr) : Prop :=
  isDebugValue i = true ∨ isUnpredicatedTerminator i = true

theorem isBranch_not_debug {i : Instr} {p : CC × Operand}
    (h : isBranch i = some p) : isDebugValue i = false := by
  cases i with
  | mk op ops => cases op <;> simp_all [isBranch, isDebugValue]

theorem isBranch_terminator {i : Instr} {p : CC × Operand}
    (h : isBranch i = some p) : isUnpredicatedTerminator i = true := by
  cases i with
  | mk op ops => cases op <;> simp_all [isBranch, isUnpredicatedTerminator]

theorem terminator_not_debug {i : Instr}
    (h : isUnpredicatedTerminator i = true) : isDebugValue i = false := by
  cases i with
  | mk op ops => cases op <;> simp_all [isUnpredicatedTerminator, isDebugValue]

/-- Scanning a run of conditional branches and debug values while a
condition is already recorded and the recorded trueTarget is B, the loop
reports unanalyzable as soon as it reaches a conditional branch to a
different block A. -/
theorem analyzeLoop_mid (am : Bool) (ls : Option Nat) (ci : Instr)
    (bbA bbB : Nat) (cA : CC)
    (hci : isBranch ci = some (cA, Operand.mbb bbA)) (hcA : cA ≠ CC.ANY)
    (hAB : bbA ≠ bbB) :
    ∀ rmid : List Instr, (∀ i ∈ rmid, MidOk i) →
    ∀ (rest below : List Instr) (fbb : Option Nat) (cond : List Operand),
      cond ≠ [] →
      (analyzeLoop am ls (rmid ++ ci :: rest) below (some bbB) fbb
        cond).unanalyzable = true := by
  have hBA : bbB ≠ bbA := Ne.symm hAB
  intro rmid
  induction rmid with
  | nil =>
    intro _ rest below fbb cond hcond
    have hdbg := isBranch_not_debug hci
    have hterm := isBranch_terminator hci
    simp [analyzeLoop, hdbg, hterm, hci, Operand.isMBB, Operand.getMBB,
          hcA, hcond, hBA]
  | cons i rmid ih =>
    intro hmid rest below fbb cond hcond
    have hrec : ∀ j ∈ rmid, MidOk j :=
      fun j hj => hmid j (List.mem_cons_of_mem _ hj)
    rcases hmid i (List.mem_cons_self _ _) with hdbg | ⟨c, tgt, hbr, hc⟩
    · simp only [List.cons_append, analyzeLoop, hdbg, if_true]
      exact ih hrec rest (i :: below) fbb cond hcond
    · have hdbg2 := isBranch_not_debug hbr
      have hterm2 := isBranch_terminator hbr
      cases tgt with
      | mbb m =>
        by_cases hm : bbB = m
        · subst hm
          simp only [List.cons_append, analyzeLoop]
          simp [hdbg2, hterm2, hbr, Operand.isMBB, Operand.getMBB, hc, hcond]
          exact ih hrec rest (i :: below) fbb cond hcond
        · simp [analyzeLoop, hdbg2, hterm2, hbr, Operand.isMBB,
                Operand.getMBB, hc, hcond, hm]
      | reg r => simp [analyzeLoop, hdbg2, hterm2, hbr, Operand.isMBB]
      | imm v => simp [analyzeLoop, hdbg2, hterm2, hbr, Operand.isMBB]
      | cond c2 => simp [analyzeLoop, hdbg2, hterm2, hbr, Operand.isMBB]
      | fi idx => simp [analyzeLoop, hdbg2, hterm2, hbr, Operand.isMBB]

/-- Scanning any run of terminators and debug values below the lower of two
conditional branches to distinct blocks (with only conditional branches and
debug values between the two), the loop always ends up reporting
unanalyzable. -/
theorem analyzeLoop_post (am : Bool) (ls : Option Nat) (ci cj : Instr)
    (bbA bbB : Nat) (cA cB : CC)
    (hci : isBranch ci = some (cA, Operand.mbb bbA)) (hcA : cA ≠ CC.ANY)
    (hcj : isBranch cj = some (cB, Operand.mbb bbB)) (hcB : cB ≠ CC.ANY)
    (hAB : bbA ≠ bbB) :
    ∀ rpost : List Instr, (∀ i ∈ rpost, PostOk i) →
    ∀ rmid : List Instr, (∀ i ∈ rmid, MidOk i) →
    ∀ (rest below : List Instr) (tbb fbb : Option Nat) (cond : List Operand),
      (analyzeLoop am ls (rpost ++ cj :: (rmid ++ ci :: rest)) below tbb fbb
        cond).unanalyzable = true := by
  intro rpost
  induction rpost with
  | nil =>
    intro _ rmid hmid rest below tbb fbb cond
    have hdbg := isBranch_not_debug hcj
    have hterm := isBranch_terminator hcj
    by_cases hcond : cond = []
    · subst hcond
      simp only [List.nil_append, analyzeLoop]
      simp [hdbg, hterm, hcj, Operand.isMBB, Operand.getMBB, hcB]
      exact analyzeLoop_mid am ls ci bbA bbB cA hci hcA hAB rmid hmid rest
        (cj :: below) tbb (Operand.cond cB :: cj.operands) (by simp)
    · by_cases htb : tbb = some bbB
      · subst htb
        simp only [List.nil_append, analyzeLoop]
        simp [hdbg, hterm, hcj, Operand.isMBB, Operand.getMBB, hcB, hcond]
        exact analyzeLoop_mid am ls ci bbA bbB cA hci hcA hAB rmid hmid rest
          (cj :: below) fbb cond hcond
      · simp [analyzeLoop, hdbg, hterm, hcj, Operand.isMBB, Operand.getMBB,
              hcB, hcond, htb]
  | cons i rpost ih =>
    intro hpost rmid hmid rest below tbb fbb cond
    have hrec : ∀ j ∈ rpost, PostOk j :=
      fun j hj => hpost j (List.mem_cons_of_mem _ hj)
    rcases hpost i (List.mem_cons_self _ _) with hdbg | hterm
    · simp only [List.cons_append, analyzeLoop, hdbg, if_true]
      exact ih hrec rmid hmid rest (i :: below) tbb fbb cond
    · have hdbg : isDebugValue i = false := terminator_not_debug hterm
      rcases hbr : isBranch i with _ | ⟨c, tgt⟩
      · simp [analyzeLoop, hdbg, hterm, hbr]
      · cases tgt with
        | mbb m =>
          by_cases hc : c = CC.ANY
          · subst hc
            by_cases ham : am = true
            · subst ham
              by_cases hls : ls = some m
              · subst hls
                simp only [List.cons_append, analyzeLoop]
                simp [hdbg, hterm, hbr, Operand.isMBB, Operand.getMBB]
                exact ih hrec rmid hmid rest [] none none []
              · simp only [List.cons_append, analyzeLoop]
                simp [hdbg, hterm, hbr, Operand.isMBB, Operand.getMBB, hls]
                exact ih hrec rmid hmid rest [i] (some m) none []
            · rw [Bool.not_eq_true] at ham
              subst ham
              simp only [List.cons_append, analyzeLoop]
              simp [hdbg, hterm, hbr, Operand.isMBB, Operand.getMBB]
              exact ih hrec rmid hmid rest (i :: below) (some m) fbb cond
          · by_cases hcond : cond = []
            · subst hcond
              simp only [List.cons_append, analyzeLoop]
              simp [hdbg, hterm, hbr, Operand.isMBB, Operand.getMBB, hc]
              exact ih hrec rmid hmid rest (i :: below) (some m) tbb
                (Operand.cond c :: i.operands)
            · by_cases htb : tbb = some m
              · subst htb
                simp only [List.cons_append, analyzeLoop]
                simp [hdbg, hterm, hbr, Operand.isMBB, Operand.getMBB,
                      hc, hcond]
                exact ih hrec rmid hmid rest (i :: below) (some m) fbb cond
              · simp [analyzeLoop, hdbg, hterm, hbr, Operand.isMBB,
                      Operand.getMBB, hc, hcond, htb]
        | reg r => simp [analyzeLoop, hdbg, hterm, hbr, Operand.isMBB]
        | imm v => simp [analyzeLoop, hdbg, hterm, hbr, Operand.isMBB]
        | cond c2 => simp [analyzeLoop, hdbg, hterm, hbr, Operand.isMBB]
        | fi idx => simp [analyzeLoop, hdbg, hterm, hbr, Operand.isMBB]

/-- Counterexample to C8 as stated: a block whose trailing terminator run
(all three instructions are terminators) contains two conditional branches
to different destinations (BEQ to block 10, BLT to block 11) but with an
unconditional jump between them; with modification allowed, AnalyzeBranch
deletes the dead lower conditional branch and succeeds with a
target/condition triple instead of reporting unanalyzable. -/
theorem AnalyzeBranch_mixed_dest_counterexample :
    isUnpredicatedTerminator
      ⟨Opcode.BEQ, [Operand.reg 1, Operand.reg 1, Operand.mbb 10]⟩ = true ∧
    isUnpredicatedTerminator ⟨Opcode.J, [Operand.mbb 12]⟩ = true ∧
    isUnpredicatedTerminator
      ⟨Opcode.BLT, [Operand.reg 1, Operand.reg 1, Operand.mbb 11]⟩ = true ∧
    isBranch ⟨Opcode.BEQ, [Operand.reg 1, Operand.reg 1, Operand.mbb 10]⟩ =
      some (CC.EQ, Operand.mbb 10) ∧
    isBranch ⟨Opcode.BLT, [Operand.reg 1, Operand.reg 1, Operand.mbb 11]⟩ =
      some (CC.LT, Operand.mbb 11) ∧
    (10 : Nat) ≠ 11 ∧
    AnalyzeBranch
        [⟨Opcode.BEQ, [Operand.reg 1, Operand.reg 1, Operand.mbb 10]⟩,
         ⟨Opcode.J, [Operand.mbb 12]⟩,
         ⟨Opcode.BLT, [Operand.reg 1, Operand.reg 1, Operand.mbb 11]⟩]
        none true =
      ⟨false, some 10, some 12,
       [Operand.cond CC.EQ, Operand.reg 1, Operand.reg 1, Operand.mbb 10],
       [⟨Opcode.BEQ, [Operand.reg 1, Operand.reg 1, Operand.mbb 10]⟩,
        ⟨Opcode.J, [Operand.mbb 12]⟩]⟩ := by
  decide

/-- C8 as amended: for every block whose trailing terminator run contains
two conditional branches targeting different destination blocks with no
unconditional branch between them (only conditional branches and debug
values may separate them), AnalyzeBranch reports unanalyzable.  The
counterexample forces the no-unconditional-between restriction: an
unconditional jump between the two conditionals makes the lower one dead
code that the modification-allowed path erases. -/
theorem AnalyzeBranch_mixed_dest_amended (am : Bool) (ls : Option Nat)
    (pre mid post : List Instr) (ci cj : Instr) (bbA bbB : Nat) (cA cB : CC)
    (hci : isBranch ci = some (cA, Operand.mbb bbA)) (hcA : cA ≠ CC.ANY)
    (hcj : isBranch cj = some (cB, Operand.mbb bbB)) (hcB : cB ≠ CC.ANY)
    (hAB : bbA ≠ bbB)
    (hmid : ∀ i ∈ mid, MidOk i) (hpost : ∀ i ∈ post, PostOk i) :
    (AnalyzeBranch (pre ++ ci :: mid ++ cj :: post) ls am).unanalyzable =
      true := by
  unfold AnalyzeBranch
  have hrev : (pre ++ ci :: mid ++ cj :: post).reverse =
      post.reverse ++ cj :: (mid.reverse ++ ci :: pre.reverse) := by
    simp
  rw [hrev]
  exact analyzeLoop_post am ls ci cj bbA bbB cA cB hci hcA hcj hcB hAB
    post.reverse (fun i hi => hpost i (List.mem_reverse.mp hi))
    mid.reverse (fun i hi => hmid i (List.mem_reverse.mp hi))
    pre.reverse [] none none []

/-- Witness for the amended C8: two adjacent conditional branches to
different blocks are reported unanalyzable. -/
theorem AnalyzeBranch_mixed_dest_amended_witness :
    (AnalyzeBranch
        [⟨Opcode.BEQ, [Operand.reg 1, Operand.reg 1, Operand.mbb 10]⟩,
         ⟨Opcode.BLT, [Operand.reg 1, Operand.reg 1, Operand.mbb 11]⟩]
        none false).unanalyzable = true :=
  AnalyzeBranch_mixed_dest_amended false none [] [] []
    ⟨Opcode.BEQ, [Operand.reg 1, Operand.reg 1, Operand.mbb 10]⟩
    ⟨Opcode.BLT, [Operand.reg 1, Operand.reg 1, Operand.mbb 11]⟩
    10 11 CC.EQ CC.LT rfl (by decide) rfl (by decide) (by decide)
    (fun i hi => absurd hi (List.not_mem_nil i))
    (fun i hi => absurd hi (List.not_mem_nil i))

end RISCV
